import Mathlib

/-!
Verification of the concurrency-control core of the Database-Concurrency-Control
repository (an in-memory key/value transaction engine with SERIAL, LOCKING A/B,
OCC, P_OCC and MVCC schedulers).  The definitions below are a shallow embedding
of the C++ sources: `txn/mvcc_storage.cc`, `txn/storage.cc`, `txn/lock_manager.cc`
and `txn/txn_processor.cc`.  Keys are natural numbers, values and transaction
timestamps are integers (the C++ `int` / `Value`), and the wall-clock `double`
timestamps of the single-version storage are modelled as integers (only their
ordering is ever used).  Containers (`std::deque`, `std::map`, `std::set`,
`std::tr1::unordered_map`) are modelled as Lean lists / association lists in
their C++ iteration order; `std::set` and `std::map` iterate in ascending key
order.  `Txn*` pointers are identified by an integer naming the transaction
object.  Worker-thread executions that the C++ runs under per-key mutexes are
modelled as atomic steps.
-/

namespace DBCC

/-- Transaction status values, as used throughout `txn/txn_processor.cc`
(declared in `txn/txn.h`). -/
inductive TxnStatus where
  | INCOMPLETE
  | COMPLETED_C
  | COMPLETED_A
  | COMMITTED
  | ABORTED
deriving Repr, DecidableEq

/-- MVCC version record, from the `Version` struct of `txn/mvcc_storage.h`:
`value_` is the stored value, `max_read_id_` is documented there as the
"largest timestamp of a transaction that read the version", and `version_id_`
is the timestamp of the writing transaction. -/
structure Version where
  value_ : Int
  max_read_id_ : Int
  version_id_ : Int
deriving Repr, DecidableEq

/-- The per-key version chain: the `deque<Version*>` of `mvcc_data_`, front of
the deque first. -/
abbrev Chain := List Version

/-- The field `mvcc_data_` of `MVCCStorage`: an association list standing for the
`unordered_map<Key, deque<Version*>*>` (a key is present exactly when the map
holds a (non-null) deque for it). -/
abbrev MvccData := List (Nat × Chain)

/-- The test `mvcc_data_.count(key)` as a Bool. -/
def dataCount (d : MvccData) (k : Nat) : Bool :=
  d.any (fun p => p.1 = k)

/-- The lookup `mvcc_data_[key]` for a present key (default chain for absent keys, which
the C++ code never dereferences on the paths we model). -/
def dataGet (d : MvccData) (k : Nat) : Chain :=
  ((d.find? (fun p => p.1 = k)).map Prod.snd).getD []

/-- Replace (or insert) the chain stored for key `k`. -/
def dataSet : MvccData → Nat → Chain → MvccData
  | [], k, c => [(k, c)]
  | p :: rest, k, c => if p.1 = k then (k, c) :: rest else p :: dataSet rest k c

/-- The scan loop of `MVCCStorage::Read` (`txn/mvcc_storage.cc` lines 56-69):
walks the version deque keeping `maxlessthan` (initially `-1`); whenever a
version has `version_id_ ≤ t` and `version_id_ > maxlessthan` it records the
value into the caller slot `*result` and assigns that version's
`max_read_id_ := t`.  The slot is an `Option Int`: `none` models the caller's
uninitialized `Value result` variable. -/
def mvccReadLoop (t : Int) : Chain → Int → Option Int → Chain × Option Int
  | [], _, slot => ([], slot)
  | v :: rest, maxlessthan, slot =>
    if v.version_id_ ≤ t ∧ maxlessthan < v.version_id_ then
      let out := mvccReadLoop t rest v.version_id_ (some v.value_)
      ({ v with max_read_id_ := t } :: out.1, out.2)
    else
      let out := mvccReadLoop t rest maxlessthan slot
      (v :: out.1, out.2)

/-- Result of `MVCCStorage::Read`: the returned Bool, the updated storage, and
the state of the caller's `*result` slot. -/
structure MvccReadResult where
  ret : Bool
  data : MvccData
  slot : Option Int
deriving Repr, DecidableEq

/-- Embeds `MVCCStorage::Read` (`txn/mvcc_storage.cc` lines 43-72): returns `false`
when `mvcc_data_.count(key) == 0`; otherwise runs the scan loop with
`maxlessthan = -1` and returns `true` unconditionally (even when no version has
`version_id_ ≤ t`, in which case the slot is left untouched). -/
def MVCCStorage.read (d : MvccData) (k : Nat) (slot : Option Int) (t : Int) :
    MvccReadResult :=
  if dataCount d k then
    let out := mvccReadLoop t (dataGet d k) (-1) slot
    ⟨true, dataSet d k out.1, out.2⟩
  else
    ⟨false, d, slot⟩

/-- The scan loop of `MVCCStorage::CheckWrite` (`txn/mvcc_storage.cc` lines
92-104): returns at the FIRST version with `version_id_ ≤ t` — `false` if its
`max_read_id_ > t`, else `true`; `true` when no version qualifies. -/
def checkWriteLoop (t : Int) : Chain → Bool
  | [] => true
  | v :: rest =>
    if v.version_id_ ≤ t then
      if v.max_read_id_ > t then false else true
    else checkWriteLoop t rest

/-- Embeds `MVCCStorage::CheckWrite` (`txn/mvcc_storage.cc` lines 76-105): `false` for
a key absent from `mvcc_data_`, else the scan loop. -/
def MVCCStorage.checkWrite (d : MvccData) (k : Nat) (t : Int) : Bool :=
  if dataCount d k then checkWriteLoop t (dataGet d k) else false

/-- The insertion loop of `MVCCStorage::Write` (`txn/mvcc_storage.cc` lines
129-139): insert the new version before the first version with a strictly
smaller `version_id_`, else push_back. -/
def mvccWriteLoop (nv : Version) : Chain → Chain
  | [] => [nv]
  | v :: rest =>
    if nv.version_id_ > v.version_id_ then nv :: v :: rest
    else v :: mvccWriteLoop nv rest

/-- Embeds `MVCCStorage::Write` (`txn/mvcc_storage.cc` lines 108-141): allocates a
version `{value, max_read_id_ = 0, version_id_ = t}`; for an absent key stores
a fresh one-element deque, otherwise runs the insertion loop. -/
def MVCCStorage.write (d : MvccData) (k : Nat) (value : Int) (t : Int) :
    MvccData :=
  let nv : Version := ⟨value, 0, t⟩
  if dataCount d k then dataSet d k (mvccWriteLoop nv (dataGet d k))
  else dataSet d k [nv]

/-! ### Transaction object (`txn/txn.h` as used by `txn/txn_processor.cc`) -/

/-- The transaction object.  `readset_`/`writeset_` are `std::set<Key>`
(modelled as lists in ascending iteration order), `reads_`/`writes_` are
`std::map<Key, Value>` (association lists in ascending key order).  A read
value is an `Option Int`: `some v` for a value copied from storage, `none` for
a value copied out of an uninitialized `Value result` stack slot.
`occ_start_time_` is the wall-clock `double` stamped at the start of the read
phase, modelled as an integer. -/
structure Txn where
  unique_id_ : Int
  readset_ : List Nat
  writeset_ : List Nat
  reads_ : List (Nat × Option Int)
  writes_ : List (Nat × Int)
  status_ : TxnStatus
  occ_start_time_ : Int
deriving Repr, DecidableEq

/-- The `std::map` insert-or-assign (`m[k] = v`), keeping ascending key order. -/
def mapAssign {α : Type} : List (Nat × α) → Nat → α → List (Nat × α)
  | [], k, v => [(k, v)]
  | p :: rest, k, v =>
    if k < p.1 then (k, v) :: p :: rest
    else if k = p.1 then (k, v) :: rest
    else p :: mapAssign rest k v

/-- A transaction body: what `txn->Run()` computes from the transaction (reads
its `reads_`, fills `writes_`, and declares `COMPLETED_C` or `COMPLETED_A`).
The concrete bodies used by the tests (Noop, Put, Expect, RMW from
`txn/txn_types.h`) are instances. -/
abbrev TxnBody := Txn → Txn

/-- Embeds `Noop::Run` from `txn/txn_types.h`: immediately `COMMIT`. -/
def noopRun : TxnBody := fun t => { t with status_ := .COMPLETED_C }

/-- Embeds `Put::Run` from `txn/txn_types.h` specialised to one pair: write `(k, v)`
and `COMMIT`. -/
def putRun (k : Nat) (v : Int) : TxnBody := fun t =>
  { t with writes_ := mapAssign t.writes_ k v, status_ := .COMPLETED_C }

/-! ### `NewTxnRequest` and the unique-id counter

`TxnProcessor::NewTxnRequest` (`txn/txn_processor.cc` lines 61-69) and the
restart paths (`RunLockingScheduler` line 176, `RunOCCScheduler` line 345,
`MVCCAbortTransaction` lines 407-411) all assign
`txn->unique_id_ = next_unique_id_; next_unique_id_++` while holding `mutex_`,
then push the transaction onto `txn_requests_`.  `assignNewId` is that atomic
assignment; every embedded admission / restart path below uses it. -/

/-- Atomic id assignment from the shared counter: stamp the transaction with
`next_unique_id_` and advance the counter. -/
def assignNewId (nextId : Int) (txn : Txn) : Txn × Int :=
  ({ txn with unique_id_ := nextId }, nextId + 1)

/-- Embeds `TxnProcessor::NewTxnRequest` (lines 61-69): stamp the transaction
from the counter and push it onto the request queue. -/
def newTxnRequest (nextId : Int) (txn : Txn) (requests : List Txn) :
    List Txn × Int :=
  let p := assignNewId nextId txn
  (requests ++ [p.1], p.2)

/-- The lifetime sequence of id assignments: every call to `NewTxnRequest` or
to a restart path is one `assignNewId` step on the shared counter (the mutex
makes the steps atomic, so any interleaving is some sequence of steps). -/
def assignIds (nextId : Int) : List Txn → List Txn × Int
  | [] => ([], nextId)
  | t :: ts =>
    let p := assignNewId nextId t
    let q := assignIds p.2 ts
    (p.1 :: q.1, q.2)

/-! ### Single-version storage (`txn/storage.cc`) -/

/-- Single-version storage: `data_` maps keys to values, `timestamps_` maps
keys to the wall-clock time of the last `Write` (`GetTime()` modelled as an
integer supplied by the caller). -/
structure SvStorage where
  data_ : List (Nat × Int)
  timestamps_ : List (Nat × Int)
deriving Repr, DecidableEq

/-- Embeds `Storage::Read` (`txn/storage.cc` lines 6-13): copy the value into the
slot and return true when the key is present. -/
def SvStorage.read (s : SvStorage) (k : Nat) (slot : Option Int) :
    Bool × Option Int :=
  match s.data_.find? (fun p => p.1 = k) with
  | some p => (true, some p.2)
  | none => (false, slot)

/-- Embeds `Storage::Write` (`txn/storage.cc` lines 16-19): store the value and stamp
the key with the current wall-clock time `now`. -/
def SvStorage.write (s : SvStorage) (k : Nat) (v : Int) (now : Int) :
    SvStorage :=
  { data_ := mapAssign s.data_ k v, timestamps_ := mapAssign s.timestamps_ k now }

/-- Embeds `Storage::Timestamp` (`txn/storage.cc` lines 21-25): 0 for a key never
written. -/
def SvStorage.timestamp (s : SvStorage) (k : Nat) : Int :=
  ((s.timestamps_.find? (fun p => p.1 = k)).map Prod.snd).getD 0

/-- The read phase of `TxnProcessor::ExecuteTxn` (`txn/txn_processor.cc` lines
234-250) over one key list: a fresh uninitialized `Value result` slot per
iteration; `reads_[key] = result` exactly when `Storage::Read` returned true. -/
def svReadKeys (s : SvStorage) (reads : List (Nat × Option Int)) :
    List Nat → List (Nat × Option Int)
  | [] => reads
  | k :: rest =>
    let r := s.read k none
    svReadKeys s (if r.1 then mapAssign reads k r.2 else reads) rest

/-- Embeds `TxnProcessor::ExecuteTxn` (`txn/txn_processor.cc` lines 229-257): stamp
`occ_start_time_ := now`, read every key of `readset_` then of `writeset_`
from single-version storage into `reads_`, and run the program logic. -/
def executeTxn (run : TxnBody) (s : SvStorage) (now : Int) (txn : Txn) : Txn :=
  let t1 := { txn with occ_start_time_ := now }
  let t2 := { t1 with reads_ := svReadKeys s (svReadKeys s t1.reads_ t1.readset_) t1.writeset_ }
  run t2

/-- Embeds `TxnProcessor::ApplyWrites` / the inline write-back loops: write each pair
of `writes_` (ascending key order) to storage, stamping time `now`. -/
def applyWrites (s : SvStorage) (txn : Txn) (now : Int) : SvStorage :=
  txn.writes_.foldl (fun st p => st.write p.1 p.2 now) s

/-! ### Serial scheduler and the P_OCC stub (`txn/txn_processor.cc`) -/

/-- What the serial scheduler does with one transaction: a pushed result or
the `DIE` fatal exit. -/
inductive SerialOutcome where
  | pushed (t : Txn)
  | die
deriving Repr, DecidableEq

/-- One iteration of `TxnProcessor::RunSerialScheduler`
(`txn/txn_processor.cc` lines 92-115) on one popped transaction: execute it,
then on `COMPLETED_C` apply the writes and push it `COMMITTED`, on
`COMPLETED_A` push it `ABORTED`, else `DIE`. -/
def runSerialTxn (run : TxnBody) (s : SvStorage) (now : Int) (txn : Txn) :
    SvStorage × SerialOutcome :=
  let t := executeTxn run s now txn
  if t.status_ = .COMPLETED_C then
    (applyWrites s t now, .pushed { t with status_ := .COMMITTED })
  else if t.status_ = .COMPLETED_A then
    (s, .pushed { t with status_ := .ABORTED })
  else (s, .die)

/-- Embeds `TxnProcessor::RunOCCParallelScheduler` (`txn/txn_processor.cc`
lines 361-373): an unimplemented stub whose whole body is
`RunSerialScheduler()`, so under P_OCC each transaction is processed exactly
like under SERIAL. -/
def runOCCParallelTxn : TxnBody → SvStorage → Int → Txn → SvStorage × SerialOutcome :=
  runSerialTxn

/-! ### OCC scheduler: handling a finished transaction
(`txn/txn_processor.cc` lines 296-357) -/

/-- What `RunOCCScheduler` does with one transaction popped from
`completed_txns_`. -/
inductive OccOutcome where
  | pushed (t : Txn)
  | requeued (t : Txn)
  | die
deriving Repr, DecidableEq

/-- The OCC validation of `RunOCCScheduler` (lines 300-319): valid iff no key
of `readset_` or `writeset_` has a storage timestamp exceeding the
transaction's `occ_start_time_`. -/
def occValid (s : SvStorage) (txn : Txn) : Bool :=
  txn.readset_.all (fun k => !(s.timestamp k > txn.occ_start_time_)) &&
  txn.writeset_.all (fun k => !(s.timestamp k > txn.occ_start_time_))

/-- Embeds the finished-transaction handling of `RunOCCScheduler` (lines 299-356):
`COMPLETED_A` is pushed `ABORTED`; a valid `COMPLETED_C` has its writes
applied and is pushed `COMMITTED`; an invalid `COMPLETED_C` is requeued after
the cleanup block (lines 339-342), which calls `reads_.empty()` and
`writes_.empty()` — `std::map::empty` is a const size query, so the two maps
are left unchanged — sets the status to `INCOMPLETE` and assigns a fresh id
via `NewTxnRequest`; anything else is the `DIE` fatal exit. -/
def occHandleFinished (s : SvStorage) (now nextId : Int) (txn : Txn) :
    SvStorage × Int × OccOutcome :=
  let valid := occValid s txn
  if txn.status_ = .COMPLETED_A then
    (s, nextId, .pushed { txn with status_ := .ABORTED })
  else if valid && txn.status_ = .COMPLETED_C then
    (applyWrites s txn now, nextId, .pushed { txn with status_ := .COMMITTED })
  else if !valid && txn.status_ = .COMPLETED_C then
    let t1 := { txn with status_ := .INCOMPLETE }
    let p := assignNewId nextId t1
    (s, p.2, .requeued p.1)
  else (s, nextId, .die)

/-! ### MVCC scheduler (`txn/txn_processor.cc` lines 375-485) -/

/-- The MVCC read phase over one key list (lines 416-445): lock the key, run
`MVCCStorage::Read` with a fresh uninitialized slot, buffer `reads_[key] =
result` exactly when it returned true, unlock.  The per-key mutexes make each
iteration atomic, which is how it is modelled. -/
def mvccReadKeys (t : Int) (st : MvccData × List (Nat × Option Int)) :
    List Nat → MvccData × List (Nat × Option Int)
  | [] => st
  | k :: rest =>
    let r := MVCCStorage.read st.1 k none t
    mvccReadKeys t (r.data, if r.ret then mapAssign st.2 k r.slot else st.2) rest

/-- The read-execute part of `TxnProcessor::MVCCExecuteTxn` (lines 414-448):
read `readset_` then `writeset_`, then run the program logic. -/
def mvccPrepare (run : TxnBody) (d : MvccData) (txn : Txn) : MvccData × Txn :=
  let st := mvccReadKeys txn.unique_id_ (d, txn.reads_) txn.readset_
  let st2 := mvccReadKeys txn.unique_id_ st txn.writeset_
  (st2.1, run { txn with reads_ := st2.2 })

/-- What `MVCCExecuteTxn` does with its transaction: push it onto
`txn_results_`, or requeue it onto `txn_requests_` via
`MVCCAbortTransaction`. -/
inductive MvccOutcome where
  | pushedResult (t : Txn)
  | requeued (t : Txn)
deriving Repr, DecidableEq

/-- The status of the transaction pushed onto the result queue, if any. -/
def MvccOutcome.pushedStatus : MvccOutcome → Option TxnStatus
  | .pushedResult t => some t.status_
  | .requeued _ => none

/-- Embeds `TxnProcessor::MVCCAbortTransaction` (lines 394-412): unlock the write
set, clear `reads_` and `writes_`, set the status to `INCOMPLETE`, and restart
through the shared id counter. -/
def mvccAbortTransaction (nextId : Int) (txn : Txn) : Txn × Int :=
  assignNewId nextId { txn with reads_ := [], writes_ := [], status_ := .INCOMPLETE }

/-- Embeds `TxnProcessor::MVCCExecuteTxn` (lines 414-485): read phase, program logic,
lock the write set, `CheckWrite` each key of `writes_` (failing on the first
false), then either abort-restart, or apply every write, unlock, and push the
transaction — with whatever status the program logic left — onto
`txn_results_`. -/
def mvccExecuteTxn (run : TxnBody) (d : MvccData) (nextId : Int) (txn : Txn) :
    MvccData × Int × MvccOutcome :=
  let pr := mvccPrepare run d txn
  let failed := pr.2.writes_.any (fun p => !MVCCStorage.checkWrite pr.1 p.1 pr.2.unique_id_)
  if failed then
    let ab := mvccAbortTransaction nextId pr.2
    (pr.1, ab.2, .requeued ab.1)
  else
    let d2 := pr.2.writes_.foldl
      (fun dd p => MVCCStorage.write dd p.1 p.2 pr.2.unique_id_) pr.1
    (d2, nextId, .pushedResult pr.2)

/-! ### Association-list helpers

`unordered_map` / `map` operations used by the lock managers: lookup,
insert-or-assign, and entry erasure. -/

/-- Lookup: the value of the first entry with key `k`, if any. -/
def alistGet? {κ α : Type} [DecidableEq κ] : List (κ × α) → κ → Option α
  | [], _ => none
  | p :: rest, k => if p.1 = k then some p.2 else alistGet? rest k

/-- Insert-or-assign. -/
def alistSet {κ α : Type} [DecidableEq κ] : List (κ × α) → κ → α → List (κ × α)
  | [], k, v => [(k, v)]
  | p :: rest, k, v => if p.1 = k then (k, v) :: rest else p :: alistSet rest k v

/-- Erase the entry with key `k` (`map::erase`). -/
def alistErase {κ α : Type} [DecidableEq κ] : List (κ × α) → κ → List (κ × α)
  | [], _ => []
  | p :: rest, k => if p.1 = k then rest else p :: alistErase rest k

/-! ### Lock manager (`txn/lock_manager.cc`) -/

/-- The `enum LockMode` from `txn/lock_manager.h` as used by
`txn/lock_manager.cc`. -/
inductive LockMode where
  | UNLOCKED
  | SHARED
  | EXCLUSIVE
deriving Repr, DecidableEq

/-- A `LockRequest` (mode, owner transaction); `Txn*` pointers are identified
by integers. -/
structure LockRequest where
  mode_ : LockMode
  txn_ : Int
deriving Repr, DecidableEq

/-- Position of the first request belonging to transaction `t` in a lock
deque (the search loop shared by both `Release` implementations). -/
def findReqIdx (t : Int) : List LockRequest → Option Nat
  | [] => none
  | r :: rest => if r.txn_ = t then some 0 else (findReqIdx t rest).map (· + 1)

/-- The increment `txn_waits_[txn]++` with `operator[]` default-constructing a 0 entry. -/
def waitsIncr (w : List (Int × Int)) (t : Int) : List (Int × Int) :=
  alistSet w t (((alistGet? w t).getD 0) + 1)

/-- State of `LockManagerA`.  `lock_table_` maps a key to its request deque; a
key absent from the list stands for an entry that is missing or holds a null
`deque<LockRequest>*` (the two are indistinguishable to the code: `operator[]`
default-inserts a null pointer). -/
structure StateA where
  lock_table_ : List (Nat × List LockRequest)
  txn_waits_ : List (Int × Int)
  ready_txns_ : List Int
deriving Repr, DecidableEq

/-- Embeds `LockManagerA::WriteLock` (`txn/lock_manager.cc` lines 33-53): push an
EXCLUSIVE request (allocating the deque if the stored pointer is null); grant
iff the queue's size is 1 after insertion, else increment the txn's wait
count. -/
def StateA.writeLock (s : StateA) (t : Int) (k : Nat) : StateA × Bool :=
  let q := (alistGet? s.lock_table_ k).getD []
  let q' := q ++ [⟨.EXCLUSIVE, t⟩]
  let s1 := { s with lock_table_ := alistSet s.lock_table_ k q' }
  if q'.length = 1 then (s1, true)
  else ({ s1 with txn_waits_ := waitsIncr s1.txn_waits_ t }, false)

/-- Embeds `LockManagerA::ReadLock` (lines 55-59), which simply calls `WriteLock`. -/
def StateA.readLock (s : StateA) (t : Int) (k : Nat) : StateA × Bool :=
  s.writeLock t k

/-- Embeds `LockManagerA::Release` (lines 61-92): erase the txn's first request from
the key's deque; `deleteHappened` ends up true exactly when the erased request
was at the front.  In that case, if the deque is still non-empty, the new
front's wait count is decremented (`operator[]` default 0) and, when it
reaches ≤ 0, the new front is pushed onto `ready_txns_` and its wait entry
erased.  The scheduler only releases keys it has requested, so the deque
pointer is non-null at every call site; an absent key is modelled as the empty
deque. -/
def StateA.release (s : StateA) (t : Int) (k : Nat) : StateA :=
  let q := (alistGet? s.lock_table_ k).getD []
  match findReqIdx t q with
  | none => s
  | some i =>
    let q' := q.eraseIdx i
    let s1 := { s with lock_table_ := alistSet s.lock_table_ k q' }
    if i = 0 then
      match q'.head? with
      | none => s1
      | some nxt =>
        let w := ((alistGet? s1.txn_waits_ nxt.txn_).getD 0) - 1
        if w ≤ 0 then
          { s1 with ready_txns_ := s1.ready_txns_ ++ [nxt.txn_],
                    txn_waits_ := alistErase s1.txn_waits_ nxt.txn_ }
        else { s1 with txn_waits_ := alistSet s1.txn_waits_ nxt.txn_ w }
    else s1

/-- Embeds `LockManagerA::Status` (lines 94-108): `lock_table_[key]` default-inserts
a NULL deque pointer for a key on which no lock was ever requested, and
`tempQueue->size()` then dereferences it — modelled as `none` (the crash).
For an allocated deque: empty means UNLOCKED (the owners vector is left
untouched), else the owners vector is cleared and set to the head's
transaction, EXCLUSIVE. -/
def StateA.statusCall (s : StateA) (k : Nat) (owners : List Int) :
    Option (LockMode × List Int) :=
  match alistGet? s.lock_table_ k with
  | none => none
  | some [] => some (.UNLOCKED, owners)
  | some (r :: _) => some (.EXCLUSIVE, [r.txn_])

/-- State of `LockManagerB`.  `lock_table_` accessed through `_getLockQueue`,
which allocates an empty deque on demand — behaviourally a total map with
default `[]`.  `numExclusiveWaiting_` is the per-key `_numExclusiveWaiting`
counter (`operator[]` default 0). -/
structure StateB where
  lock_table_ : List (Nat × List LockRequest)
  txn_waits_ : List (Int × Int)
  numExclusiveWaiting_ : List (Nat × Int)
  ready_txns_ : List Int
deriving Repr, DecidableEq

/-- The helper `_getLockQueue(key)` viewed as a lookup (default empty deque). -/
def StateB.queueOf (s : StateB) (k : Nat) : List LockRequest :=
  (alistGet? s.lock_table_ k).getD []

/-- The owner-scan loop of `LockManagerB::Status` (lines 178-189): walk the
deque accumulating a front batch of SHARED owners (stopping before an
EXCLUSIVE), or take a single EXCLUSIVE head as sole owner.  `mode` starts as
EXCLUSIVE. -/
def statusLoopB : List LockRequest → LockMode → List Int → LockMode × List Int
  | [], mode, acc => (mode, acc)
  | r :: rest, mode, acc =>
    if r.mode_ = .EXCLUSIVE ∧ mode = .SHARED then (mode, acc)
    else
      let acc' := acc ++ [r.txn_]
      if r.mode_ = .EXCLUSIVE then (.EXCLUSIVE, acc')
      else statusLoopB rest .SHARED acc'

/-- Embeds `LockManagerB::Status` (lines 172-195): UNLOCKED with the owners vector
untouched for an empty deque (the call sites pass a fresh empty vector), else
the owner-scan loop. -/
def StateB.status (s : StateB) (k : Nat) : LockMode × List Int :=
  match s.queueOf k with
  | [] => (.UNLOCKED, [])
  | q => statusLoopB q .EXCLUSIVE []

/-- Embeds `LockManagerB::_addLock` (lines 114-132): read the status BEFORE
insertion, push the request, then: SHARED is granted iff the key was UNLOCKED
or `_numExclusiveWaiting[key] == 0`; EXCLUSIVE increments that counter and is
granted iff the key was UNLOCKED.  A denied transaction's wait count is
incremented. -/
def StateB.addLock (s : StateB) (mode : LockMode) (t : Int) (k : Nat) :
    StateB × Bool :=
  let st := (s.status k).1
  let q' := s.queueOf k ++ [⟨mode, t⟩]
  let s1 := { s with lock_table_ := alistSet s.lock_table_ k q' }
  if mode = .SHARED then
    let granted := st = .UNLOCKED ∨ (alistGet? s1.numExclusiveWaiting_ k).getD 0 = 0
    if granted then (s1, true)
    else ({ s1 with txn_waits_ := waitsIncr s1.txn_waits_ t }, false)
  else
    let c1 := alistSet s1.numExclusiveWaiting_ k (((alistGet? s1.numExclusiveWaiting_ k).getD 0) + 1)
    let s2 := { s1 with numExclusiveWaiting_ := c1 }
    if st = .UNLOCKED then (s2, true)
    else ({ s2 with txn_waits_ := waitsIncr s2.txn_waits_ t }, false)

/-- Embeds `LockManagerB::WriteLock` (lines 135-137). -/
def StateB.writeLock (s : StateB) (t : Int) (k : Nat) : StateB × Bool :=
  s.addLock .EXCLUSIVE t k

/-- Embeds `LockManagerB::ReadLock` (lines 139-141). -/
def StateB.readLock (s : StateB) (t : Int) (k : Nat) : StateB × Bool :=
  s.addLock .SHARED t k

/-- The value read by `it->mode_` AFTER `queue->erase(it)` in
`LockManagerB::Release` (lines 146-155).  Erasing through the iterator and
then reading it is undefined behaviour in C++; this models what libstdc++'s
`deque::erase` leaves in the iterator's slot: for an index in the front half
the elements before it are shifted back and the front popped (the slot holds
the previous element, or the erased bytes when erasing the very front); for
the back half the elements after it are shifted forward and the back popped
(the slot holds the NEXT request, or the erased bytes when erasing the very
last element). -/
def ubErasedModeRead (q : List LockRequest) (i : Nat) : LockMode :=
  let j := if i < q.length / 2 then (if i = 0 then i else i - 1)
           else (if i + 1 < q.length then i + 1 else i)
  ((q.get? j).map (fun r => r.mode_)).getD .UNLOCKED

/-- The erase part of `LockManagerB::Release` (lines 144-155): erase the
txn's first request; then `if (it->mode_ == EXCLUSIVE)` — a read through the
just-invalidated iterator, see `ubErasedModeRead` — decrement
`_numExclusiveWaiting[key]`. -/
def StateB.releaseErase (s : StateB) (t : Int) (k : Nat) : StateB :=
  let q := s.queueOf k
  match findReqIdx t q with
  | none => s
  | some i =>
    let m := ubErasedModeRead q i
    let s1 := { s with lock_table_ := alistSet s.lock_table_ k (q.eraseIdx i) }
    if m = .EXCLUSIVE then
      { s1 with numExclusiveWaiting_ :=
          alistSet s1.numExclusiveWaiting_ k (((alistGet? s1.numExclusiveWaiting_ k).getD 0) - 1) }
    else s1

/-- The advance loop of `LockManagerB::Release` (lines 160-169) for one owner:
if the owner has a `txn_waits_` entry, decrement it; at zero, push the owner
onto `ready_txns_` and erase the entry. -/
def advanceOwner (s : StateB) (o : Int) : StateB :=
  match alistGet? s.txn_waits_ o with
  | none => s
  | some c =>
    if c - 1 = 0 then
      { s with ready_txns_ := s.ready_txns_ ++ [o],
               txn_waits_ := alistErase s.txn_waits_ o }
    else { s with txn_waits_ := alistSet s.txn_waits_ o (c - 1) }

/-- Embeds `LockManagerB::Release` (lines 143-170): erase (with the invalidated
iterator read), then recompute `Status(key, &newOwners)` and advance each new
owner. -/
def StateB.release (s : StateB) (t : Int) (k : Nat) : StateB :=
  let s1 := s.releaseErase t k
  ((s1.status k).2).foldl advanceOwner s1

/-! ### The locking scheduler (`txn/txn_processor.cc` lines 117-227)

`RunLockingScheduler` is shared between modes A and B; `lm_` is a
`LockManagerA` or a `LockManagerB`. -/

/-- The lock manager the scheduler talks to: mode A or mode B state. -/
inductive LMState where
  | A (s : StateA)
  | B (s : StateB)
deriving Repr, DecidableEq

/-- Virtual dispatch of `lm_->ReadLock`. -/
def LMState.readLock : LMState → Int → Nat → LMState × Bool
  | .A s, t, k => let p := s.readLock t k; (.A p.1, p.2)
  | .B s, t, k => let p := s.readLock t k; (.B p.1, p.2)

/-- Virtual dispatch of `lm_->WriteLock`. -/
def LMState.writeLock : LMState → Int → Nat → LMState × Bool
  | .A s, t, k => let p := s.writeLock t k; (.A p.1, p.2)
  | .B s, t, k => let p := s.writeLock t k; (.B p.1, p.2)

/-- Virtual dispatch of `lm_->Release`. -/
def LMState.release : LMState → Int → Nat → LMState
  | .A s, t, k => .A (s.release t k)
  | .B s, t, k => .B (s.release t k)

/-- The transactions queued (granted or waiting) on a key's lock deque. -/
def LMState.queueTxns : LMState → Nat → List Int
  | .A s, k => ((alistGet? s.lock_table_ k).getD []).map (fun r => r.txn_)
  | .B s, k => (s.queueOf k).map (fun r => r.txn_)

/-- One lock-manager call made by the scheduler on behalf of a transaction:
a `ReadLock`/`WriteLock` request with its grant result, or a `Release`. -/
inductive LockEv where
  | request (k : Nat) (granted : Bool)
  | released (k : Nat)
deriving Repr, DecidableEq

/-- Whether some request in the trace was denied. -/
def deniedIn (tr : List LockEv) : Bool :=
  tr.any (fun e => match e with | .request _ g => !g | .released _ => false)

/-- The keys of the lock requests in the trace, in order. -/
def requestedKeys (tr : List LockEv) : List Nat :=
  tr.filterMap (fun e => match e with | .request k _ => some k | .released _ => none)

/-- The keys of the releases in the trace, in order. -/
def releasedKeys (tr : List LockEv) : List Nat :=
  tr.filterMap (fun e => match e with | .request _ _ => none | .released k => some k)

/-- The read-lock loop of `RunLockingScheduler` (lines 128-143): request each
readset key in order; on a denial set `blocked` and, when the transaction
touches more than one key in total, release every readset key from the
beginning through the denied one (inclusive) and break out; with a single-key
transaction the loop just continues.  `done` is the prefix of keys already
requested in this loop. -/
def acqReadLoop (tid : Int) (total : Nat) (done : List Nat) (blocked : Bool) :
    LMState → List Nat → LMState × List LockEv × Bool
  | lm, [] => (lm, [], blocked)
  | lm, k :: rest =>
    let p := lm.readLock tid k
    if p.2 then
      let r := acqReadLoop tid total (done ++ [k]) blocked p.1 rest
      (r.1, .request k true :: r.2.1, r.2.2)
    else if 1 < total then
      let rel := done ++ [k]
      let lm2 := rel.foldl (fun m kk => m.release tid kk) p.1
      (lm2, .request k false :: rel.map LockEv.released, true)
    else
      let r := acqReadLoop tid total (done ++ [k]) true p.1 rest
      (r.1, .request k false :: r.2.1, r.2.2)

/-- The write-lock loop of `RunLockingScheduler` (lines 147-165): request each
writeset key in order; on a denial with a multi-key transaction release every
readset key and every writeset key from the beginning through the denied one
(inclusive) and break out. -/
def acqWriteLoop (tid : Int) (total : Nat) (rset : List Nat) (done : List Nat)
    (blocked : Bool) : LMState → List Nat → LMState × List LockEv × Bool
  | lm, [] => (lm, [], blocked)
  | lm, k :: rest =>
    let p := lm.writeLock tid k
    if p.2 then
      let r := acqWriteLoop tid total rset (done ++ [k]) blocked p.1 rest
      (r.1, .request k true :: r.2.1, r.2.2)
    else if 1 < total then
      let rel := rset ++ (done ++ [k])
      let lm2 := rel.foldl (fun m kk => m.release tid kk) p.1
      (lm2, .request k false :: rel.map LockEv.released, true)
    else
      let r := acqWriteLoop tid total rset (done ++ [k]) true p.1 rest
      (r.1, .request k false :: r.2.1, r.2.2)

/-- Both lock-request loops in sequence; the write loop runs only if the read
loop did not leave `blocked` set (line 145). -/
def acqCombined (tid : Int) (total : Nat) (lm : LMState)
    (rset wset : List Nat) : LMState × List LockEv × Bool :=
  let r := acqReadLoop tid total [] false lm rset
  if r.2.2 then (r.1, r.2.1, true)
  else
    let w := acqWriteLoop tid total rset [] false r.1 wset
    (w.1, r.2.1 ++ w.2.1, w.2.2)

/-- What the scheduler does with a newly popped transaction request. -/
inductive AcqOutcome where
  | ready (t : Txn)
  | requeued (t : Txn)
  | leftQueued (t : Txn)
deriving Repr, DecidableEq

/-- Result of processing one popped request in `RunLockingScheduler`. -/
structure AcqResult where
  lm : LMState
  nextId : Int
  trace : List LockEv
  outcome : AcqOutcome
deriving Repr, DecidableEq

/-- The request-admission part of `RunLockingScheduler` (lines 123-178): run
both lock loops; if nothing was denied push the transaction onto
`ready_txns_`; if something was denied and the transaction touches more than
one key, restart it through `NewTxnRequest` (fresh id from the shared
counter); otherwise leave its single queued request in place. -/
def lockingAcquire (lm : LMState) (nextId : Int) (txn : Txn) : AcqResult :=
  let total := txn.readset_.length + txn.writeset_.length
  let c := acqCombined txn.unique_id_ total lm txn.readset_ txn.writeset_
  if !c.2.2 then ⟨c.1, nextId, c.2.1, .ready txn⟩
  else if 1 < total then
    let p := assignNewId nextId txn
    ⟨c.1, p.2, c.2.1, .requeued p.1⟩
  else ⟨c.1, nextId, c.2.1, .leftQueued txn⟩

/-! ### Ownership ledger for Locking B

For the held-modes invariant, a transaction owns a key from the moment its
lock call returns true, or from the moment the lock manager moves it to the
ready queue (at which point every request it still has queued is granted),
until it releases the key. -/

/-- A lock-manager call, for driving mode-B states through call sequences. -/
inductive LmOp where
  | readLock (t : Int) (k : Nat)
  | writeLock (t : Int) (k : Nat)
  | release (t : Int) (k : Nat)
deriving Repr, DecidableEq

/-- Mode-B lock-manager state together with the per-key list of current
owners (transaction, held mode). -/
structure OwnersLedger where
  lm : StateB
  holders : List (Nat × List (Int × LockMode))
deriving Repr, DecidableEq

/-- Record that `t` now holds `k` in mode `m`. -/
def addHolder (h : List (Nat × List (Int × LockMode))) (k : Nat) (t : Int)
    (m : LockMode) : List (Nat × List (Int × LockMode)) :=
  alistSet h k (((alistGet? h k).getD []) ++ [(t, m)])

/-- Record that `t` no longer holds `k`. -/
def removeHolder (h : List (Nat × List (Int × LockMode))) (k : Nat) (t : Int) :
    List (Nat × List (Int × LockMode)) :=
  alistSet h k (((alistGet? h k).getD []).filter (fun p => p.1 ≠ t))

/-- Apply one lock-manager call and track ownership: a granted lock call adds
a holder; a release removes one and then grants, to every transaction newly
pushed onto `ready_txns_`, each key where it still has a queued request (lock
calls never touch the ready queue, so promotions happen only on release). -/
def ledgerStep (L : OwnersLedger) (op : LmOp) : OwnersLedger :=
  match op with
  | .readLock t k =>
    let p := L.lm.readLock t k
    ⟨p.1, if p.2 then addHolder L.holders k t .SHARED else L.holders⟩
  | .writeLock t k =>
    let p := L.lm.writeLock t k
    ⟨p.1, if p.2 then addHolder L.holders k t .EXCLUSIVE else L.holders⟩
  | .release t k =>
    let before := L.lm.ready_txns_.length
    let lm2 := L.lm.release t k
    let newly := lm2.ready_txns_.drop before
    let h1 := removeHolder L.holders k t
    let h2 := newly.foldl (fun h o =>
      (lm2.lock_table_.map Prod.fst).foldl (fun hh kk =>
        match (lm2.queueOf kk).find? (fun r => r.txn_ = o) with
        | some r => addHolder hh kk o r.mode_
        | none => hh) h) h1
    ⟨lm2, h2⟩

/-- Drive the ledger through a call sequence from the initial (empty) mode-B
state. -/
def runLedger (ops : List LmOp) : OwnersLedger :=
  ops.foldl ledgerStep ⟨⟨[], [], [], []⟩, []⟩

/-! ### Claim statements phrased as predicates -/

/-- The amended C3 statement, as a predicate: (a) for a key present in MVCC
storage, `mvcc_check_write(key, t)` returns true iff the version with the
greatest `version_id ≤ t` on that key — the first such version in the
newest-first deque — has `max_read_id ≤ t`, or no such version exists
(versions with `version_id > t` are not examined, so their `max_read_id`
cannot block the write); (b) consequently a transaction commits (has its
writes applied and is pushed as a result) only if every key it writes passed
that check. -/
def checkWriteAmendedProp (d : MvccData) (k : Nat) (t : Int) : Prop :=
  (MVCCStorage.checkWrite d k t = true ↔
    ∀ v : Version,
      (dataGet d k).find? (fun w => decide (w.version_id_ ≤ t)) = some v →
      v.max_read_id_ ≤ t) ∧
  (∀ (run : TxnBody) (d2 : MvccData) (n : Int) (txn t' : Txn),
    (mvccExecuteTxn run d2 n txn).2.2 = .pushedResult t' →
    ∀ p ∈ t'.writes_,
      MVCCStorage.checkWrite (mvccPrepare run d2 txn).1 p.1 t'.unique_id_ = true)

/-- The C8 restart policy of the locking scheduler, as a predicate over the
processing of one popped request.  Denial with more than one touched key:
the scheduler releases exactly the keys it requested (acquired or queued), in
order, and requeues the transaction with the fresh id from the shared counter
— strictly larger than its current id.  Denial with exactly one touched key:
nothing is released, nothing is requeued, and the transaction's single
request is still queued on its key. -/
def lockingDenialRestartProp (lm : LMState) (nextId : Int) (txn : Txn) : Prop :=
  (deniedIn (lockingAcquire lm nextId txn).trace = true →
    1 < txn.readset_.length + txn.writeset_.length →
    (lockingAcquire lm nextId txn).outcome
        = .requeued { txn with unique_id_ := nextId } ∧
    txn.unique_id_ < nextId ∧
    (lockingAcquire lm nextId txn).nextId = nextId + 1 ∧
    releasedKeys (lockingAcquire lm nextId txn).trace
        = requestedKeys (lockingAcquire lm nextId txn).trace) ∧
  (deniedIn (lockingAcquire lm nextId txn).trace = true →
    txn.readset_.length + txn.writeset_.length = 1 →
    (lockingAcquire lm nextId txn).outcome = .leftQueued txn ∧
    (lockingAcquire lm nextId txn).nextId = nextId ∧
    releasedKeys (lockingAcquire lm nextId txn).trace = [] ∧
    ∀ k ∈ requestedKeys (lockingAcquire lm nextId txn).trace,
      txn.unique_id_ ∈ ((lockingAcquire lm nextId txn).lm).queueTxns k)

/-- The promotion mechanism of `LockManagerA::Release`: when the released
transaction was the head of a key's queue and the waiting transaction behind
it (with one remaining wait) becomes the new head, that transaction is pushed
onto the ready queue. -/
def promotionPropA : Prop :=
  ∀ (s : StateA) (ru rT : LockRequest) (k : Nat) (rest : List LockRequest),
    (alistGet? s.lock_table_ k).getD [] = ru :: rT :: rest →
    rT.txn_ ≠ ru.txn_ →
    alistGet? s.txn_waits_ rT.txn_ = some 1 →
    rT.txn_ ∈ (s.release ru.txn_ k).ready_txns_

/-- The promotion mechanism of `LockManagerB::Release`: any transaction with
one remaining wait that is among the key's owners after the erase step is
pushed onto the ready queue. -/
def promotionPropB : Prop :=
  ∀ (s : StateB) (u T : Int) (k : Nat),
    alistGet? s.txn_waits_ T = some 1 →
    T ∈ ((s.releaseErase u k).status k).2 →
    T ∈ (s.release u k).ready_txns_

/-! ## Claim theorems -/

/-- C1.  FALSE of the code, by evaluation at a failing input: under MVCC a
`Noop` transaction (empty read and write sets, program logic declaring
`COMPLETED_C`) passes the empty write check, and `MVCCExecuteTxn` pushes it
onto the result queue still carrying status `COMPLETED_C` — the function never
assigns `COMMITTED` or `ABORTED` — so the transaction handed back through
`GetTxnResult` does not have a terminal status.  (The SERIAL, LOCKING and OCC
paths do set a terminal status before pushing.) -/
theorem C1_mvcc_pushes_nonterminal_status :
    (mvccExecuteTxn noopRun [] 2 ⟨1, [], [], [], [], .INCOMPLETE, 0⟩).2.2.pushedStatus
        = some .COMPLETED_C ∧
    (TxnStatus.COMPLETED_C ≠ .COMMITTED ∧ TxnStatus.COMPLETED_C ≠ .ABORTED) := by
  decide

/-- For contrast with the MVCC path: the serial scheduler (also run for
P_OCC) pushes only transactions whose status it has set to `COMMITTED` or
`ABORTED`. -/
theorem runSerialTxn_pushes_terminal (run : TxnBody) (s : SvStorage)
    (now : Int) (txn t' : Txn)
    (h : (runSerialTxn run s now txn).2 = .pushed t') :
    t'.status_ = .COMMITTED ∨ t'.status_ = .ABORTED := by
  unfold runSerialTxn at h
  by_cases h1 : (executeTxn run s now txn).status_ = .COMPLETED_C
  · rw [if_pos h1] at h
    cases h
    left; rfl
  · rw [if_neg h1] at h
    by_cases h2 : (executeTxn run s now txn).status_ = .COMPLETED_A
    · rw [if_pos h2] at h
      cases h
      right; rfl
    · rw [if_neg h2] at h
      cases h

/-- Witness for `runSerialTxn_pushes_terminal`: a committed `Noop` under the
serial scheduler. -/
theorem runSerialTxn_pushes_terminal_witness :
    (runSerialTxn noopRun ⟨[], []⟩ 0 ⟨1, [], [], [], [], .INCOMPLETE, 0⟩).2
        = .pushed ⟨1, [], [], [], [], .COMMITTED, 0⟩ ∧
    (TxnStatus.COMMITTED = .COMMITTED ∨ TxnStatus.COMMITTED = .ABORTED) :=
  ⟨by decide,
   runSerialTxn_pushes_terminal noopRun ⟨[], []⟩ 0 ⟨1, [], [], [], [], .INCOMPLETE, 0⟩
     ⟨1, [], [], [], [], .COMMITTED, 0⟩ (by decide)⟩

/-- For contrast with the MVCC path: the OCC scheduler pushes only
transactions whose status it has set to `COMMITTED` or `ABORTED` (an invalid
`COMPLETED_C` transaction is requeued, not pushed). -/
theorem occHandleFinished_pushes_terminal (s : SvStorage) (now nextId : Int)
    (txn t' : Txn)
    (h : (occHandleFinished s now nextId txn).2.2 = .pushed t') :
    t'.status_ = .COMMITTED ∨ t'.status_ = .ABORTED := by
  unfold occHandleFinished at h
  by_cases h1 : txn.status_ = .COMPLETED_A
  · rw [if_pos h1] at h
    cases h
    right; rfl
  · rw [if_neg h1] at h
    by_cases h2 : (occValid s txn && txn.status_ = .COMPLETED_C) = true
    · rw [if_pos h2] at h
      cases h
      left; rfl
    · rw [if_neg h2] at h
      by_cases h3 : (!occValid s txn && txn.status_ = .COMPLETED_C) = true
      · rw [if_pos h3] at h
        cases h
      · rw [if_neg h3] at h
        cases h

/-- Witness for `occHandleFinished_pushes_terminal`: a validated committed
transaction. -/
theorem occHandleFinished_pushes_terminal_witness :
    (occHandleFinished ⟨[], []⟩ 0 5 ⟨1, [], [], [], [], .COMPLETED_C, 0⟩).2.2
        = .pushed ⟨1, [], [], [], [], .COMMITTED, 0⟩ ∧
    (TxnStatus.COMMITTED = .COMMITTED ∨ TxnStatus.COMMITTED = .ABORTED) :=
  ⟨by decide,
   occHandleFinished_pushes_terminal ⟨[], []⟩ 0 5 ⟨1, [], [], [], [], .COMPLETED_C, 0⟩
     ⟨1, [], [], [], [], .COMMITTED, 0⟩ (by decide)⟩

/-- C2.  FALSE of the code, by evaluation at a failing input.  Start from the
chain created by `Write(3, 7, 0)`; a read by transaction 10 sets the version's
`max_read_id_` to 10 (first conjunct).  A later read by transaction 5 then
OVERWRITES `max_read_id_` with 5 — `MVCCStorage::Read` assigns
`max_read_id_ = txn_unique_id` unconditionally instead of taking the maximum,
contradicting both the claim and the `Version` struct's own documentation of
`max_read_id_` as the largest reader timestamp (second conjunct).  Third
conjunct: when no version has `version_id_ ≤ t` (single version with
`version_id_ = 10`, reader 5) the function still returns `true` with the
caller's result slot untouched, rather than reporting "not found". -/
theorem C2_read_clobbers_max_read_id :
    (MVCCStorage.read (MVCCStorage.write [] 3 7 0) 3 none 10).data
        = [(3, [⟨7, 10, 0⟩])] ∧
    MVCCStorage.read [(3, [⟨7, 10, 0⟩])] 3 none 5
        = ⟨true, [(3, [⟨7, 5, 0⟩])], some 7⟩ ∧
    MVCCStorage.read [(3, [⟨7, 0, 10⟩])] 3 none 5
        = ⟨true, [(3, [⟨7, 0, 10⟩])], none⟩ := by
  decide

/-- C4.  FALSE of the code, by evaluation at a failing input: a finished
`COMPLETED_C` transaction (id 3, `reads_ = {1 ↦ 42}`, `writes_ = {2 ↦ 9}`,
start time 5) fails OCC validation against a storage whose key 1 was last
written at time 10.  The scheduler does reset the status to `INCOMPLETE`,
assign the fresh larger id 7 and requeue — but `reads_` and `writes_` still
hold their entries, because the cleanup block calls `std::map::empty()`, a
side-effect-free size query, instead of `clear()` (contradicting its own
comment "Set empty reads and writes"). -/
theorem C4_occ_requeue_keeps_reads_and_writes :
    occHandleFinished ⟨[(1, 42)], [(1, 10)]⟩ 20 7
        ⟨3, [1], [2], [(1, some 42)], [(2, 9)], .COMPLETED_C, 5⟩
      = (⟨[(1, 42)], [(1, 10)]⟩, 8,
          .requeued ⟨7, [1], [2], [(1, some 42)], [(2, 9)], .INCOMPLETE, 5⟩) ∧
    ([(1, some 42)] : List (Nat × Option Int)) ≠ [] ∧
    ([(2, 9)] : List (Nat × Int)) ≠ [] := by
  decide

/-- C5.  FALSE of the code: `RunOCCParallelScheduler` is an unimplemented stub
whose body is `RunSerialScheduler()` (its own comment says "Implement this
method!  ...  For now, run serial scheduler"), so under P_OCC nothing runs on
a worker thread and no `active_set` overlap check exists.  First conjunct: the
P_OCC per-transaction processing IS the serial per-transaction processing.
Remaining conjuncts: transaction 1 writes key 1 and transaction 2 reads key 1
— an overlap the claimed check would have to examine — yet both are processed
to `COMMITTED` by the serial path with no restart. -/
theorem C5_pocc_runs_serial_scheduler :
    runOCCParallelTxn = runSerialTxn ∧
    (runOCCParallelTxn (putRun 1 5) ⟨[(1, 0)], [(1, 0)]⟩ 3
        ⟨1, [], [1], [], [], .INCOMPLETE, 0⟩).2
      = .pushed ⟨1, [], [1], [(1, some 0)], [(1, 5)], .COMMITTED, 3⟩ ∧
    (runOCCParallelTxn noopRun ⟨[(1, 5)], [(1, 3)]⟩ 4
        ⟨2, [1], [], [], [], .INCOMPLETE, 0⟩).2
      = .pushed ⟨2, [1], [], [(1, some 5)], [], .COMMITTED, 4⟩ := by
  exact ⟨rfl, by decide, by decide⟩

/-- C6.  FALSE of the code, by evaluation at a failing input: after
`ReadLock(t1, 7)`, `ReadLock(t2, 7)`, `WriteLock(t3, 7)` the queue on key 7 is
`[SHARED t1, SHARED t2, EXCLUSIVE t3]` with `exclusive_waiting[7] = 1`.
`Release(t2, 7)` erases t2's SHARED request, but the subsequent
`it->mode_ == EXCLUSIVE` test reads through the erased iterator position —
which now denotes t3's EXCLUSIVE request — so `exclusive_waiting[7]` is
decremented to 0 even though the erased request was SHARED. -/
theorem C6_release_decrements_on_shared_erase :
    let s0 : StateB := ⟨[], [], [], []⟩
    let s1 := (((s0.readLock 1 7).1.readLock 2 7).1.writeLock 3 7).1
    (s1.queueOf 7).get? 1 = some ⟨.SHARED, 2⟩ ∧
    alistGet? s1.numExclusiveWaiting_ 7 = some 1 ∧
    (s1.release 2 7).queueOf 7 = [⟨.SHARED, 1⟩, ⟨.EXCLUSIVE, 3⟩] ∧
    alistGet? (s1.release 2 7).numExclusiveWaiting_ 7 = some 0 := by
  decide

/-- C7.  FALSE of the code, by evaluation at a failing input: drive mode B
through `ReadLock(t1,7)`, `ReadLock(t2,7)`, `WriteLock(t3,7)`, `Release(t2,7)`,
`ReadLock(t4,7)`, `Release(t1,7)`.  The release of t2 wrongly decrements
`exclusive_waiting[7]` to 0 (the invalidated-iterator read of C6), so t4's
SHARED request is granted while t3's EXCLUSIVE request is still queued; the
release of t1 then promotes t3 through the ready queue.  Key 7 ends up held by
t4 in SHARED mode and t3 in EXCLUSIVE mode simultaneously. -/
theorem C7_shared_and_exclusive_owners_coexist :
    alistGet? (runLedger [.readLock 1 7, .readLock 2 7, .writeLock 3 7,
        .release 2 7, .readLock 4 7, .release 1 7]).holders 7
      = some [(4, .SHARED), (3, .EXCLUSIVE)] ∧ (4 : Int) ≠ 3 := by
  decide

/-- C10, counterexample.  On a key on which no lock was ever requested,
`lock_table_[key]` default-inserts a NULL `deque<LockRequest>*` and
`tempQueue->size()` dereferences it: the per-key queue lookup fails (modelled
as `none`) instead of returning `UNLOCKED` as the claim states. -/
theorem C10_status_fails_on_fresh_key :
    StateA.statusCall ⟨[], [], []⟩ 5 [] = none ∧
    (none : Option (LockMode × List Int)) ≠ some (.UNLOCKED, []) := by
  decide

/-- C10, amended.  For every key whose queue has been allocated (some lock was
requested on it at some point), `LockManagerA::Status` is well defined: it
returns `UNLOCKED` (owners untouched) when the queue is empty, and otherwise
`EXCLUSIVE` after setting the owners to exactly the transaction at the head of
the queue.  On a never-requested key the lookup yields a null queue pointer
and the size check dereferences it (undefined behaviour). -/
theorem C10_amended_status_on_allocated_queue (s : StateA) (k : Nat)
    (owners : List Int) (q : List LockRequest)
    (h : alistGet? s.lock_table_ k = some q) :
    s.statusCall k owners = some (match q with
      | [] => (.UNLOCKED, owners)
      | r :: _ => (.EXCLUSIVE, [r.txn_])) := by
  cases q with
  | nil => simp [StateA.statusCall, h]
  | cons r rest => simp [StateA.statusCall, h]

/-- Witness for `C10_amended_status_on_allocated_queue` at a concrete state:
key 7 was requested (by transaction 3), so its queue is allocated and Status
reports `EXCLUSIVE` with owner 3. -/
theorem C10_amended_status_witness :
    alistGet? (StateA.lock_table_ ⟨[(7, [⟨.EXCLUSIVE, 3⟩])], [], []⟩) 7
        = some [⟨.EXCLUSIVE, 3⟩] ∧
    StateA.statusCall ⟨[(7, [⟨.EXCLUSIVE, 3⟩])], [], []⟩ 7 []
        = some (.EXCLUSIVE, [3]) :=
  ⟨by decide, C10_amended_status_on_allocated_queue ⟨[(7, [⟨.EXCLUSIVE, 3⟩])], [], []⟩
    7 [] [⟨.EXCLUSIVE, 3⟩] (by decide)⟩

/-- C3, counterexample.  Build the chain by `Write(1, 0, 0)` (initialization)
then `Write(1, 5, 10)`, and let transaction 12 read the key — stamping the
newest version's `max_read_id_` to 12.  `CheckWrite(1, 5)` then returns `true`
even though the key holds a version with `max_read_id_ = 12 > 5`: the scan
skips versions with `version_id_ > 5` and only tests the first version with
`version_id_ ≤ 5`, so the claimed "true iff no version on the key has
`max_read_id > t`" fails. -/
theorem C3_checkWrite_ignores_later_readers :
    let d := (MVCCStorage.read
      (MVCCStorage.write (MVCCStorage.write [] 1 0 0) 1 5 10) 1 none 12).data
    d = [(1, [⟨5, 12, 10⟩, ⟨0, 0, 0⟩])] ∧
    MVCCStorage.checkWrite d 1 5 = true ∧
    (dataGet d 1).any (fun v => v.max_read_id_ > 5) = true := by
  decide

/-- Characterization of the `CheckWrite` scan loop: it answers true exactly
when the first version in deque order with `version_id_ ≤ t` (if any) has
`max_read_id_ ≤ t`. -/
theorem checkWriteLoop_iff_find (t : Int) (q : Chain) :
    (checkWriteLoop t q = true ↔
      ∀ v : Version,
        q.find? (fun w => decide (w.version_id_ ≤ t)) = some v →
        v.max_read_id_ ≤ t) := by
  induction q with
  | nil => simp [checkWriteLoop]
  | cons v rest ih =>
    by_cases hv : v.version_id_ ≤ t
    · rw [List.find?_cons_of_pos _ (by simpa using hv)]
      simp only [checkWriteLoop, if_pos hv]
      constructor
      · intro h w hw
        cases hw
        by_contra hc
        simp [show v.max_read_id_ > t by omega] at h
      · intro h
        have := h v rfl
        simp [show ¬ v.max_read_id_ > t by omega]
    · rw [List.find?_cons_of_neg _ (by simpa using hv)]
      simpa [checkWriteLoop, hv] using ih

/-- C3, amended: proof of `checkWriteAmendedProp` for every key present in
MVCC storage. -/
theorem C3_amended_checkWrite_first_visible (d : MvccData) (k : Nat) (t : Int)
    (h : dataCount d k = true) : checkWriteAmendedProp d k t := by
  constructor
  · rw [MVCCStorage.checkWrite, if_pos h]
    exact checkWriteLoop_iff_find t (dataGet d k)
  · intro run d2 n txn t' hout p hp
    rw [mvccExecuteTxn] at hout
    by_cases hf : (mvccPrepare run d2 txn).2.writes_.any
        (fun q => !MVCCStorage.checkWrite (mvccPrepare run d2 txn).1 q.1
          (mvccPrepare run d2 txn).2.unique_id_)
    · simp only [hf, if_true] at hout
      exact absurd hout (by simp)
    · simp only [hf, if_false] at hout
      cases hout
      rw [Bool.not_eq_true, List.any_eq_false] at hf
      have := hf p hp
      simpa using this

/-- Witness for `C3_amended_checkWrite_first_visible` at the concrete storage
of the C3 counterexample (key 1 present), with writer timestamp 3. -/
theorem C3_amended_witness :
    dataCount [(1, [⟨5, 12, 10⟩, ⟨0, 0, 0⟩])] 1 = true ∧
    checkWriteAmendedProp [(1, [⟨5, 12, 10⟩, ⟨0, 0, 0⟩])] 1 3 :=
  ⟨by decide,
   C3_amended_checkWrite_first_visible [(1, [⟨5, 12, 10⟩, ⟨0, 0, 0⟩])] 1 3 (by decide)⟩

/-- Lower bound on the ids handed out by a run of assignments starting at
`nextId`: every assigned id is at least `nextId`. -/
theorem assignIds_lower_bound (ts : List Txn) :
    ∀ (n : Int), ∀ t' ∈ (assignIds n ts).1, n ≤ t'.unique_id_ := by
  induction ts with
  | nil => intro n t' h; simp [assignIds] at h
  | cons t ts ih =>
    intro n t' h
    simp only [assignIds, assignNewId, List.mem_cons] at h
    rcases h with h | h
    · subst h; simp
    · have := ih (n + 1) t' h
      omega

/-- Strict monotonicity, the lower bound and the final counter value of a
run of id assignments, by induction over the run. -/
theorem assignIds_spec (nextId : Int) (ts : List Txn) :
    ((assignIds nextId ts).1.map (fun t => t.unique_id_)).Pairwise (· < ·) ∧
    (∀ t' ∈ (assignIds nextId ts).1, nextId ≤ t'.unique_id_) ∧
    (assignIds nextId ts).2 = nextId + ts.length := by
  induction ts generalizing nextId with
  | nil => simp [assignIds]
  | cons t ts ih =>
    obtain ⟨ihp, ihlow, ihcount⟩ := ih (nextId + 1)
    refine ⟨?_, ?_, ?_⟩
    · simp only [assignIds, assignNewId, List.map_cons, List.pairwise_cons]
      refine ⟨?_, ihp⟩
      intro a ha
      simp only [List.mem_map] at ha
      obtain ⟨t', ht', rfl⟩ := ha
      have := assignIds_lower_bound ts (nextId + 1) t' ht'
      simpa using by omega
    · intro t' h
      simp only [assignIds, assignNewId, List.mem_cons] at h
      rcases h with h | h
      · subst h; simp
      · have := ihlow t' h; omega
    · simp only [assignIds, assignNewId, ihcount, List.length_cons]
      push_cast
      ring

/-- C9.  Every id assignment — `NewTxnRequest` admission and every restart
path (the OCC requeue, the locking restart and `MVCCAbortTransaction` all run
`txn->unique_id_ = next_unique_id_; next_unique_id_++` under `mutex_`, i.e.
one `assignNewId` step on the shared counter; the embeddings `newTxnRequest`,
`occHandleFinished`, `lockingAcquire` and `mvccAbortTransaction` all call
`assignNewId`) — takes the current counter value and advances it, so across
any lifetime sequence of assignments the ids are strictly increasing and
unique (each strictly larger than every previously assigned id), each id is
at least the starting counter value, and the counter ends at start plus the
number of assignments. -/
theorem C9_assigned_ids_strictly_increasing (nextId : Int) (ts : List Txn) :
    ((assignIds nextId ts).1.map (fun t => t.unique_id_)).Pairwise (· < ·) ∧
    ((assignIds nextId ts).1.map (fun t => t.unique_id_)).Nodup ∧
    (∀ t' ∈ (assignIds nextId ts).1, nextId ≤ t'.unique_id_) ∧
    (assignIds nextId ts).2 = nextId + ts.length := by
  obtain ⟨h1, h2, h3⟩ := assignIds_spec nextId ts
  exact ⟨h1, h1.imp (fun h => ne_of_lt h), h2, h3⟩

/-! ### Helper lemmas for the locking scheduler (C8) -/

/-- Lookup after insert-or-assign. -/
theorem alistGet?_set {κ α : Type} [DecidableEq κ] (l : List (κ × α))
    (k j : κ) (v : α) :
    alistGet? (alistSet l k v) j = if j = k then some v else alistGet? l j := by
  induction l with
  | nil =>
    by_cases h : j = k
    · subst h; simp [alistSet, alistGet?]
    · have h2 : ¬ k = j := fun hc => h hc.symm
      simp [alistSet, alistGet?, h, h2]
  | cons p rest ih =>
    by_cases hp : p.1 = k
    · by_cases hj : j = k
      · subst hj; simp [alistSet, hp, alistGet?]
      · have h2 : ¬ k = j := fun hc => hj hc.symm
        have hpj : ¬ p.1 = j := fun hc => hj (hc.symm.trans hp)
        simp [alistSet, hp, alistGet?, hj, hpj, h2]
    · by_cases hj : p.1 = j
      · have hjk : ¬ j = k := fun hc => hp (hj.symm ▸ hc)
        simp [alistSet, hp, alistGet?, hj, hjk]
      · simp [alistSet, hp, alistGet?, hj, ih]
/-- Lookup after entry erasure at a different key. -/
theorem alistGet?_erase_ne {κ α : Type} [DecidableEq κ] (l : List (κ × α))
    (k j : κ) (h : j ≠ k) :
    alistGet? (alistErase l k) j = alistGet? l j := by
  induction l with
  | nil => simp [alistErase]
  | cons p rest ih =>
    by_cases hp : p.1 = k
    · have hpj : ¬ p.1 = j := fun hc => h (hc.symm.trans hp)
      have h2 : ¬ k = j := fun hc => h hc.symm
      simp [alistErase, hp, alistGet?, hpj, h2]
    · simp [alistErase, hp, alistGet?, ih]

/-- A denial in a concatenated trace. -/
theorem deniedIn_append (a b : List LockEv) :
    deniedIn (a ++ b) = (deniedIn a || deniedIn b) :=
  List.any_append
/-- Release events carry no denial. -/
theorem deniedIn_released_map (ks : List Nat) :
    deniedIn (ks.map LockEv.released) = false := by
  induction ks with
  | nil => rfl
  | cons k ks ih => simp [deniedIn] at ih ⊢

/-- Requested keys of a concatenated trace. -/
theorem requestedKeys_append (a b : List LockEv) :
    requestedKeys (a ++ b) = requestedKeys a ++ requestedKeys b :=
  List.filterMap_append a b _
/-- Release events request nothing. -/
theorem requestedKeys_released_map (ks : List Nat) :
    requestedKeys (ks.map LockEv.released) = [] := by
  induction ks with
  | nil => rfl
  | cons k ks ih => simp [requestedKeys] at ih ⊢

/-- Released keys of a concatenated trace. -/
theorem releasedKeys_append (a b : List LockEv) :
    releasedKeys (a ++ b) = releasedKeys a ++ releasedKeys b :=
  List.filterMap_append a b _
/-- The released keys of a pure release trace. -/
theorem releasedKeys_released_map (ks : List Nat) :
    releasedKeys (ks.map LockEv.released) = ks := by
  induction ks with
  | nil => rfl
  | cons k ks ih => simpa [releasedKeys] using ih

/-- Unfolding lemma: a request event at the head of a trace. -/
theorem deniedIn_cons_request (k : Nat) (g : Bool) (tr : List LockEv) :
    deniedIn (.request k g :: tr) = (!g || deniedIn tr) := rfl
/-- Unfolding lemma: a release event at the head of a trace. -/
theorem deniedIn_cons_released (k : Nat) (tr : List LockEv) :
    deniedIn (.released k :: tr) = deniedIn tr := rfl
/-- Unfolding lemma: requested keys behind a request event. -/
theorem requestedKeys_cons_request (k : Nat) (g : Bool) (tr : List LockEv) :
    requestedKeys (.request k g :: tr) = k :: requestedKeys tr := rfl
/-- Unfolding lemma: requested keys behind a release event. -/
theorem requestedKeys_cons_released (k : Nat) (tr : List LockEv) :
    requestedKeys (.released k :: tr) = requestedKeys tr := rfl
/-- Unfolding lemma: released keys behind a request event. -/
theorem releasedKeys_cons_request (k : Nat) (g : Bool) (tr : List LockEv) :
    releasedKeys (.request k g :: tr) = releasedKeys tr := rfl
/-- Unfolding lemma: released keys behind a release event. -/
theorem releasedKeys_cons_released (k : Nat) (tr : List LockEv) :
    releasedKeys (.released k :: tr) = k :: releasedKeys tr := rfl

/-- The per-key queues after a mode A or B `WriteLock`: the request is
appended to the named key's queue and every other queue is untouched (in
both branches — granted or not). -/
theorem queueTxns_writeLock (lm : LMState) (t : Int) (k j : Nat) :
    ((lm.writeLock t k).1).queueTxns j
      = if j = k then lm.queueTxns j ++ [t] else lm.queueTxns j := by
  cases lm with
  | A s =>
    have htab : (s.writeLock t k).1.lock_table_
        = alistSet s.lock_table_ k
            (((alistGet? s.lock_table_ k).getD []) ++ [⟨.EXCLUSIVE, t⟩]) := by
      simp only [StateA.writeLock]
      split <;> rfl
    show ((alistGet? (s.writeLock t k).1.lock_table_ j).getD []).map (fun r => r.txn_) = _
    rw [htab, alistGet?_set]
    by_cases hj : j = k <;> simp [hj, LMState.queueTxns]
  | B s =>
    have htab : (s.writeLock t k).1.lock_table_
        = alistSet s.lock_table_ k (s.queueOf k ++ [⟨.EXCLUSIVE, t⟩]) := by
      simp only [StateB.writeLock, StateB.addLock]
      split <;> split <;> rfl
    show ((alistGet? (s.writeLock t k).1.lock_table_ j).getD []).map (fun r => r.txn_) = _
    rw [htab, alistGet?_set]
    by_cases hj : j = k <;> simp [hj, LMState.queueTxns, StateB.queueOf]

/-- Likewise for `ReadLock` (mode A turns it into an EXCLUSIVE request, mode B
into a SHARED one; either way the owner is appended). -/
theorem queueTxns_readLock (lm : LMState) (t : Int) (k j : Nat) :
    ((lm.readLock t k).1).queueTxns j
      = if j = k then lm.queueTxns j ++ [t] else lm.queueTxns j := by
  cases lm with
  | A s => exact queueTxns_writeLock (.A s) t k j
  | B s =>
    have htab : (s.readLock t k).1.lock_table_
        = alistSet s.lock_table_ k (s.queueOf k ++ [⟨.SHARED, t⟩]) := by
      simp only [StateB.readLock, StateB.addLock]
      split <;> split <;> rfl
    show ((alistGet? (s.readLock t k).1.lock_table_ j).getD []).map (fun r => r.txn_) = _
    rw [htab, alistGet?_set]
    by_cases hj : j = k <;> simp [hj, LMState.queueTxns, StateB.queueOf]

/-- Behaviour of the read-lock loop: (1) it reports blocked iff it entered
blocked or some request in its trace was denied; (2) if nothing was denied it
requested exactly the given keys and released nothing; (3) with a single-key
transaction it never releases; (4) with a multi-key transaction, once a
denial occurs it has released exactly the `done` prefix followed by the keys
it requested. -/
theorem acqReadLoop_spec (tid : Int) (total : Nat) (keys : List Nat) :
    ∀ (lm : LMState) (done : List Nat) (b : Bool),
      ((acqReadLoop tid total done b lm keys).2.2
          = (b || deniedIn (acqReadLoop tid total done b lm keys).2.1)) ∧
      (deniedIn (acqReadLoop tid total done b lm keys).2.1 = false →
        requestedKeys (acqReadLoop tid total done b lm keys).2.1 = keys ∧
        releasedKeys (acqReadLoop tid total done b lm keys).2.1 = []) ∧
      (¬ 1 < total →
        releasedKeys (acqReadLoop tid total done b lm keys).2.1 = []) ∧
      (1 < total → deniedIn (acqReadLoop tid total done b lm keys).2.1 = true →
        releasedKeys (acqReadLoop tid total done b lm keys).2.1
          = done ++ requestedKeys (acqReadLoop tid total done b lm keys).2.1) := by
  induction keys with
  | nil =>
    intro lm done b
    simp [acqReadLoop, deniedIn, requestedKeys, releasedKeys]
  | cons k rest ih =>
    intro lm done b
    by_cases hg : (lm.readLock tid k).2 = true
    · obtain ⟨ih1, ih2, ih3, ih4⟩ := ih (lm.readLock tid k).1 (done ++ [k]) b
      simp only [acqReadLoop, hg, if_true]
      refine ⟨?_, ?_, ?_, ?_⟩
      · rw [deniedIn_cons_request]
        simpa using ih1
      · intro hden
        rw [deniedIn_cons_request] at hden
        simp only [Bool.not_true, Bool.false_or] at hden
        obtain ⟨ih2a, ih2b⟩ := ih2 hden
        rw [requestedKeys_cons_request, releasedKeys_cons_request, ih2a, ih2b]
        exact ⟨rfl, rfl⟩
      · intro ht
        rw [releasedKeys_cons_request]
        exact ih3 ht
      · intro ht hden
        rw [deniedIn_cons_request] at hden
        simp only [Bool.not_true, Bool.false_or] at hden
        rw [releasedKeys_cons_request, requestedKeys_cons_request, ih4 ht hden]
        simp
    · have hg2 : (lm.readLock tid k).2 = false := by
        rwa [Bool.not_eq_true] at hg
      by_cases htot : 1 < total
      · simp only [acqReadLoop, hg2, Bool.false_eq_true, if_false]
        rw [if_pos htot]
        refine ⟨?_, ?_, ?_, ?_⟩
        · rw [deniedIn_cons_request]; simp
        · intro hden
          rw [deniedIn_cons_request] at hden
          simp at hden
        · intro ht; exact absurd htot ht
        · intro _ _
          rw [releasedKeys_cons_request, requestedKeys_cons_request,
            releasedKeys_released_map, requestedKeys_released_map]
      · obtain ⟨ih1, ih2, ih3, ih4⟩ := ih (lm.readLock tid k).1 (done ++ [k]) true
        simp only [acqReadLoop, hg2, Bool.false_eq_true, if_false]
        rw [if_neg htot]
        refine ⟨?_, ?_, ?_, ?_⟩
        · rw [deniedIn_cons_request, ih1]
          simp
        · intro hden
          rw [deniedIn_cons_request] at hden
          simp at hden
        · intro ht
          rw [releasedKeys_cons_request]
          exact ih3 ht
        · intro ht _; exact absurd ht htot

/-- Behaviour of the write-lock loop, as for `acqReadLoop_spec`; on a
multi-key denial it has released the whole readset, then the `done` prefix,
then its requested keys. -/
theorem acqWriteLoop_spec (tid : Int) (total : Nat) (rset : List Nat)
    (keys : List Nat) :
    ∀ (lm : LMState) (done : List Nat) (b : Bool),
      ((acqWriteLoop tid total rset done b lm keys).2.2
          = (b || deniedIn (acqWriteLoop tid total rset done b lm keys).2.1)) ∧
      (deniedIn (acqWriteLoop tid total rset done b lm keys).2.1 = false →
        requestedKeys (acqWriteLoop tid total rset done b lm keys).2.1 = keys ∧
        releasedKeys (acqWriteLoop tid total rset done b lm keys).2.1 = []) ∧
      (¬ 1 < total →
        releasedKeys (acqWriteLoop tid total rset done b lm keys).2.1 = []) ∧
      (1 < total →
        deniedIn (acqWriteLoop tid total rset done b lm keys).2.1 = true →
        releasedKeys (acqWriteLoop tid total rset done b lm keys).2.1
          = rset ++ done
              ++ requestedKeys (acqWriteLoop tid total rset done b lm keys).2.1) := by
  induction keys with
  | nil =>
    intro lm done b
    simp [acqWriteLoop, deniedIn, requestedKeys, releasedKeys]
  | cons k rest ih =>
    intro lm done b
    by_cases hg : (lm.writeLock tid k).2 = true
    · obtain ⟨ih1, ih2, ih3, ih4⟩ := ih (lm.writeLock tid k).1 (done ++ [k]) b
      simp only [acqWriteLoop, hg, if_true]
      refine ⟨?_, ?_, ?_, ?_⟩
      · rw [deniedIn_cons_request]
        simpa using ih1
      · intro hden
        rw [deniedIn_cons_request] at hden
        simp only [Bool.not_true, Bool.false_or] at hden
        obtain ⟨ih2a, ih2b⟩ := ih2 hden
        rw [requestedKeys_cons_request, releasedKeys_cons_request, ih2a, ih2b]
        exact ⟨rfl, rfl⟩
      · intro ht
        rw [releasedKeys_cons_request]
        exact ih3 ht
      · intro ht hden
        rw [deniedIn_cons_request] at hden
        simp only [Bool.not_true, Bool.false_or] at hden
        rw [releasedKeys_cons_request, requestedKeys_cons_request, ih4 ht hden]
        simp
    · have hg2 : (lm.writeLock tid k).2 = false := by
        rwa [Bool.not_eq_true] at hg
      by_cases htot : 1 < total
      · simp only [acqWriteLoop, hg2, Bool.false_eq_true, if_false]
        rw [if_pos htot]
        refine ⟨?_, ?_, ?_, ?_⟩
        · rw [deniedIn_cons_request]; simp
        · intro hden
          rw [deniedIn_cons_request] at hden
          simp at hden
        · intro ht; exact absurd htot ht
        · intro _ _
          rw [releasedKeys_cons_request, requestedKeys_cons_request,
            releasedKeys_released_map, requestedKeys_released_map]
          simp
      · obtain ⟨ih1, ih2, ih3, ih4⟩ := ih (lm.writeLock tid k).1 (done ++ [k]) true
        simp only [acqWriteLoop, hg2, Bool.false_eq_true, if_false]
        rw [if_neg htot]
        refine ⟨?_, ?_, ?_, ?_⟩
        · rw [deniedIn_cons_request, ih1]
          simp
        · intro hden
          rw [deniedIn_cons_request] at hden
          simp at hden
        · intro ht
          rw [releasedKeys_cons_request]
          exact ih3 ht
        · intro ht _; exact absurd ht htot

/-- Behaviour of the two loops in sequence: blocked iff some request was
denied; a single-key transaction releases nothing; a multi-key transaction
that hit a denial has released exactly the keys it requested. -/
theorem acqCombined_spec (tid : Int) (total : Nat) (lm : LMState)
    (rset wset : List Nat) :
    ((acqCombined tid total lm rset wset).2.2
        = deniedIn (acqCombined tid total lm rset wset).2.1) ∧
    (¬ 1 < total →
      releasedKeys (acqCombined tid total lm rset wset).2.1 = []) ∧
    (1 < total → deniedIn (acqCombined tid total lm rset wset).2.1 = true →
      releasedKeys (acqCombined tid total lm rset wset).2.1
        = requestedKeys (acqCombined tid total lm rset wset).2.1) := by
  obtain ⟨r1, r2, r3, r4⟩ := acqReadLoop_spec tid total rset lm [] false
  by_cases hr : (acqReadLoop tid total [] false lm rset).2.2 = true
  · have hden : deniedIn (acqReadLoop tid total [] false lm rset).2.1 = true := by
      rw [hr] at r1
      simpa using r1.symm
    simp only [acqCombined, hr, if_true]
    refine ⟨hden.symm, fun ht => r3 ht, fun ht _ => ?_⟩
    simpa using r4 ht hden
  · have hr2 : (acqReadLoop tid total [] false lm rset).2.2 = false := by
      rwa [Bool.not_eq_true] at hr
    have hdr : deniedIn (acqReadLoop tid total [] false lm rset).2.1 = false := by
      rw [hr2] at r1
      simpa using r1.symm
    obtain ⟨hreq, hrel⟩ := r2 hdr
    obtain ⟨w1, w2, w3, w4⟩ :=
      acqWriteLoop_spec tid total rset wset (acqReadLoop tid total [] false lm rset).1 [] false
    simp only [acqCombined, hr2, Bool.false_eq_true, if_false]
    refine ⟨?_, ?_, ?_⟩
    · rw [deniedIn_append, hdr, Bool.false_or]
      simpa using w1
    · intro ht
      rw [releasedKeys_append, hrel, w3 ht]
      rfl
    · intro ht hdenall
      rw [deniedIn_append, hdr, Bool.false_or] at hdenall
      rw [releasedKeys_append, hrel, w4 ht hdenall, requestedKeys_append, hreq]
      simp

/-- If the read-lock loop released nothing, then (a) every queued request
survives it, and (b) the transaction's own request is queued on every key the
loop requested. -/
theorem acqReadLoop_queue (tid : Int) (total : Nat) (keys : List Nat) :
    ∀ (lm : LMState) (done : List Nat) (b : Bool),
      releasedKeys (acqReadLoop tid total done b lm keys).2.1 = [] →
      (∀ (j : Nat) (x : Int), x ∈ lm.queueTxns j →
        x ∈ ((acqReadLoop tid total done b lm keys).1).queueTxns j) ∧
      (∀ k ∈ requestedKeys (acqReadLoop tid total done b lm keys).2.1,
        tid ∈ ((acqReadLoop tid total done b lm keys).1).queueTxns k) := by
  induction keys with
  | nil =>
    intro lm done b _
    constructor
    · intro j x hx; exact hx
    · intro k hk; simp [acqReadLoop, requestedKeys] at hk
  | cons k rest ih =>
    intro lm done b
    have hself : tid ∈ ((lm.readLock tid k).1).queueTxns k := by
      rw [queueTxns_readLock]
      simp
    have hmono : ∀ (j : Nat) (x : Int), x ∈ lm.queueTxns j →
        x ∈ ((lm.readLock tid k).1).queueTxns j := by
      intro j x hx
      rw [queueTxns_readLock]
      by_cases hj : j = k
      · subst hj; simp [hx]
      · simp [hj, hx]
    by_cases hg : (lm.readLock tid k).2 = true
    · simp only [acqReadLoop, hg, if_true]
      rw [releasedKeys_cons_request]
      intro hrel
      obtain ⟨ihmono, ihreq⟩ := ih (lm.readLock tid k).1 (done ++ [k]) b hrel
      constructor
      · intro j x hx
        exact ihmono j x (hmono j x hx)
      · rw [requestedKeys_cons_request]
        intro k2 hk2
        rcases List.mem_cons.mp hk2 with he | hm
        · subst he; exact ihmono k2 tid hself
        · exact ihreq k2 hm
    · have hg2 : (lm.readLock tid k).2 = false := by
        rwa [Bool.not_eq_true] at hg
      by_cases htot : 1 < total
      · simp only [acqReadLoop, hg2, Bool.false_eq_true, if_false]
        rw [if_pos htot, releasedKeys_cons_request, releasedKeys_released_map]
        intro hrel
        exact absurd hrel (by simp)
      · simp only [acqReadLoop, hg2, Bool.false_eq_true, if_false]
        rw [if_neg htot, releasedKeys_cons_request]
        intro hrel
        obtain ⟨ihmono, ihreq⟩ := ih (lm.readLock tid k).1 (done ++ [k]) true hrel
        constructor
        · intro j x hx
          exact ihmono j x (hmono j x hx)
        · rw [requestedKeys_cons_request]
          intro k2 hk2
          rcases List.mem_cons.mp hk2 with he | hm
          · subst he; exact ihmono k2 tid hself
          · exact ihreq k2 hm

/-- The same for the write-lock loop. -/
theorem acqWriteLoop_queue (tid : Int) (total : Nat) (rset : List Nat)
    (keys : List Nat) :
    ∀ (lm : LMState) (done : List Nat) (b : Bool),
      releasedKeys (acqWriteLoop tid total rset done b lm keys).2.1 = [] →
      (∀ (j : Nat) (x : Int), x ∈ lm.queueTxns j →
        x ∈ ((acqWriteLoop tid total rset done b lm keys).1).queueTxns j) ∧
      (∀ k ∈ requestedKeys (acqWriteLoop tid total rset done b lm keys).2.1,
        tid ∈ ((acqWriteLoop tid total rset done b lm keys).1).queueTxns k) := by
  induction keys with
  | nil =>
    intro lm done b _
    constructor
    · intro j x hx; exact hx
    · intro k hk; simp [acqWriteLoop, requestedKeys] at hk
  | cons k rest ih =>
    intro lm done b
    have hself : tid ∈ ((lm.writeLock tid k).1).queueTxns k := by
      rw [queueTxns_writeLock]
      simp
    have hmono : ∀ (j : Nat) (x : Int), x ∈ lm.queueTxns j →
        x ∈ ((lm.writeLock tid k).1).queueTxns j := by
      intro j x hx
      rw [queueTxns_writeLock]
      by_cases hj : j = k
      · subst hj; simp [hx]
      · simp [hj, hx]
    by_cases hg : (lm.writeLock tid k).2 = true
    · simp only [acqWriteLoop, hg, if_true]
      rw [releasedKeys_cons_request]
      intro hrel
      obtain ⟨ihmono, ihreq⟩ := ih (lm.writeLock tid k).1 (done ++ [k]) b hrel
      constructor
      · intro j x hx
        exact ihmono j x (hmono j x hx)
      · rw [requestedKeys_cons_request]
        intro k2 hk2
        rcases List.mem_cons.mp hk2 with he | hm
        · subst he; exact ihmono k2 tid hself
        · exact ihreq k2 hm
    · have hg2 : (lm.writeLock tid k).2 = false := by
        rwa [Bool.not_eq_true] at hg
      by_cases htot : 1 < total
      · simp only [acqWriteLoop, hg2, Bool.false_eq_true, if_false]
        rw [if_pos htot, releasedKeys_cons_request, releasedKeys_released_map]
        intro hrel
        exact absurd hrel (by simp)
      · simp only [acqWriteLoop, hg2, Bool.false_eq_true, if_false]
        rw [if_neg htot, releasedKeys_cons_request]
        intro hrel
        obtain ⟨ihmono, ihreq⟩ := ih (lm.writeLock tid k).1 (done ++ [k]) true hrel
        constructor
        · intro j x hx
          exact ihmono j x (hmono j x hx)
        · rw [requestedKeys_cons_request]
          intro k2 hk2
          rcases List.mem_cons.mp hk2 with he | hm
          · subst he; exact ihmono k2 tid hself
          · exact ihreq k2 hm

/-- If the whole lock-acquisition phase released nothing, the transaction's
request is still queued on every key it requested. -/
theorem acqCombined_queue (tid : Int) (total : Nat) (lm : LMState)
    (rset wset : List Nat)
    (hrel : releasedKeys (acqCombined tid total lm rset wset).2.1 = []) :
    ∀ k ∈ requestedKeys (acqCombined tid total lm rset wset).2.1,
      tid ∈ ((acqCombined tid total lm rset wset).1).queueTxns k := by
  by_cases hr : (acqReadLoop tid total [] false lm rset).2.2 = true
  · simp only [acqCombined, hr, if_true] at hrel ⊢
    exact (acqReadLoop_queue tid total rset lm [] false hrel).2
  · have hr2 : (acqReadLoop tid total [] false lm rset).2.2 = false := by
      rwa [Bool.not_eq_true] at hr
    simp only [acqCombined, hr2, Bool.false_eq_true, if_false] at hrel ⊢
    rw [releasedKeys_append, List.append_eq_nil] at hrel
    obtain ⟨hrelr, hrelw⟩ := hrel
    obtain ⟨rmono, rreq⟩ := acqReadLoop_queue tid total rset lm [] false hrelr
    obtain ⟨wmono, wreq⟩ := acqWriteLoop_queue tid total rset wset
      (acqReadLoop tid total [] false lm rset).1 [] false hrelw
    intro k hk
    rw [requestedKeys_append] at hk
    rcases List.mem_append.mp hk with hkr | hkw
    · exact wmono k tid (rreq k hkr)
    · exact wreq k hkw

/-- Advancing one owner never removes anyone from the ready queue. -/
theorem advanceOwner_ready_mono (s : StateB) (o x : Int)
    (h : x ∈ s.ready_txns_) : x ∈ (advanceOwner s o).ready_txns_ := by
  unfold advanceOwner
  cases alistGet? s.txn_waits_ o with
  | none => exact h
  | some c =>
    by_cases hc : c - 1 = 0 <;> simp [hc, h]

/-- Folding the advance over all owners never removes anyone from the ready
queue. -/
theorem foldAdvance_ready_mono (owners : List Int) :
    ∀ (s : StateB) (x : Int), x ∈ s.ready_txns_ →
      x ∈ (owners.foldl advanceOwner s).ready_txns_ := by
  induction owners with
  | nil => intro s x h; exact h
  | cons o os ih =>
    intro s x h
    exact ih (advanceOwner s o) x (advanceOwner_ready_mono s o x h)

/-- Advancing a different owner leaves a transaction's wait entry alone. -/
theorem advanceOwner_waits_ne (s : StateB) (o T : Int) (h : o ≠ T) :
    alistGet? (advanceOwner s o).txn_waits_ T = alistGet? s.txn_waits_ T := by
  unfold advanceOwner
  cases alistGet? s.txn_waits_ o with
  | none => rfl
  | some c =>
    by_cases hc : c - 1 = 0
    · simp only [hc, if_true]
      exact alistGet?_erase_ne s.txn_waits_ o T (fun hh => h hh.symm)
    · simp only [hc, if_false]
      rw [alistGet?_set, if_neg (fun hh : T = o => h hh.symm)]

/-- A transaction with exactly one remaining wait that appears among the new
owners is pushed onto the ready queue by the advance loop. -/
theorem foldAdvance_promotes (owners : List Int) :
    ∀ (s : StateB) (T : Int), alistGet? s.txn_waits_ T = some 1 →
      T ∈ owners → T ∈ (owners.foldl advanceOwner s).ready_txns_ := by
  induction owners with
  | nil => intro s T _ h; simp at h
  | cons o os ih =>
    intro s T hw hmem
    simp only [List.foldl_cons]
    by_cases ho : o = T
    · subst ho
      apply foldAdvance_ready_mono
      unfold advanceOwner
      rw [hw]
      simp
    · rcases List.mem_cons.mp hmem with he | hmem2
      · exact absurd he.symm ho
      · exact ih (advanceOwner s o) T
          (by rw [advanceOwner_waits_ne s o T ho]; exact hw) hmem2

/-- The erase step of `LockManagerB::Release` leaves `txn_waits_` alone. -/
theorem releaseErase_waits (s : StateB) (u : Int) (k : Nat) :
    (s.releaseErase u k).txn_waits_ = s.txn_waits_ := by
  cases h : findReqIdx u (s.queueOf k) with
  | none => simp only [StateB.releaseErase, h]
  | some i =>
    simp only [StateB.releaseErase, h]
    split <;> rfl

/-- Proof of the mode-B promotion mechanism. -/
theorem promotionB_holds : promotionPropB := by
  intro s u T k hw hmem
  unfold StateB.release
  exact foldAdvance_promotes _ _ T (by rw [releaseErase_waits]; exact hw) hmem

/-- Proof of the mode-A promotion mechanism. -/
theorem promotionA_holds : promotionPropA := by
  intro s ru rT k rest hq hne hw
  unfold StateA.release
  rw [hq]
  have h0 : findReqIdx ru.txn_ (ru :: rT :: rest) = some 0 := by
    simp [findReqIdx]
  simp only [h0]
  simp [List.eraseIdx, hw]

/-- Case characterization of the admission step: blocked and multi-key means
requeue with the fresh id; blocked single-key means left queued; unblocked
means ready. -/
theorem lockingAcquire_cases (lm : LMState) (nextId : Int) (txn : Txn) :
    lockingAcquire lm nextId txn =
      if (acqCombined txn.unique_id_ (txn.readset_.length + txn.writeset_.length)
            lm txn.readset_ txn.writeset_).2.2 = true then
        if 1 < txn.readset_.length + txn.writeset_.length then
          ⟨(acqCombined txn.unique_id_ (txn.readset_.length + txn.writeset_.length)
              lm txn.readset_ txn.writeset_).1, nextId + 1,
            (acqCombined txn.unique_id_ (txn.readset_.length + txn.writeset_.length)
              lm txn.readset_ txn.writeset_).2.1,
            .requeued { txn with unique_id_ := nextId }⟩
        else
          ⟨(acqCombined txn.unique_id_ (txn.readset_.length + txn.writeset_.length)
              lm txn.readset_ txn.writeset_).1, nextId,
            (acqCombined txn.unique_id_ (txn.readset_.length + txn.writeset_.length)
              lm txn.readset_ txn.writeset_).2.1,
            .leftQueued txn⟩
      else
        ⟨(acqCombined txn.unique_id_ (txn.readset_.length + txn.writeset_.length)
            lm txn.readset_ txn.writeset_).1, nextId,
          (acqCombined txn.unique_id_ (txn.readset_.length + txn.writeset_.length)
            lm txn.readset_ txn.writeset_).2.1,
          .ready txn⟩ := by
  unfold lockingAcquire
  by_cases hb : (acqCombined txn.unique_id_
      (txn.readset_.length + txn.writeset_.length)
      lm txn.readset_ txn.writeset_).2.2 = true
  · rw [if_pos hb]
    simp only [hb, Bool.not_true, Bool.false_eq_true, if_false]
    split <;> simp [assignNewId]
  · have hb2 : (acqCombined txn.unique_id_
        (txn.readset_.length + txn.writeset_.length)
        lm txn.readset_ txn.writeset_).2.2 = false := by
      rwa [Bool.not_eq_true] at hb
    rw [if_neg hb]
    simp [hb2]

/-- C8.  The locking scheduler's restart policy (both lock-manager modes, via
`lockingDenialRestartProp`): a denied multi-key transaction has every
requested lock released and is requeued with the fresh, strictly larger id; a
denied single-key transaction is neither released nor requeued, its request
staying queued on its key.  Together with the promotion mechanisms of the two
lock managers (`promotionPropA`, `promotionPropB`): once a release makes such
a waiting transaction an owner — the new head in mode A, a member of the
recomputed owner set in mode B — it is pushed onto the `ready` queue. -/
theorem C8_locking_denial_policy (lm : LMState) (nextId : Int) (txn : Txn)
    (hid : txn.unique_id_ < nextId) :
    lockingDenialRestartProp lm nextId txn ∧ promotionPropA ∧ promotionPropB := by
  refine ⟨?_, promotionA_holds, promotionB_holds⟩
  obtain ⟨c1, c2, c3⟩ := acqCombined_spec txn.unique_id_
    (txn.readset_.length + txn.writeset_.length) lm txn.readset_ txn.writeset_
  have htr : (lockingAcquire lm nextId txn).trace
      = (acqCombined txn.unique_id_ (txn.readset_.length + txn.writeset_.length)
          lm txn.readset_ txn.writeset_).2.1 := by
    rw [lockingAcquire_cases]
    split
    · split <;> rfl
    · rfl
  constructor
  · intro hden htot
    rw [htr] at hden
    have hbl := c1.trans hden
    have heq : lockingAcquire lm nextId txn
        = ⟨(acqCombined txn.unique_id_
              (txn.readset_.length + txn.writeset_.length)
              lm txn.readset_ txn.writeset_).1, nextId + 1,
            (acqCombined txn.unique_id_
              (txn.readset_.length + txn.writeset_.length)
              lm txn.readset_ txn.writeset_).2.1,
            .requeued { txn with unique_id_ := nextId }⟩ := by
      rw [lockingAcquire_cases, if_pos hbl, if_pos htot]
    rw [heq]
    exact ⟨rfl, hid, rfl, c3 htot hden⟩
  · intro hden htot1
    rw [htr] at hden
    have hbl := c1.trans hden
    have hnt : ¬ 1 < txn.readset_.length + txn.writeset_.length := by omega
    have heq : lockingAcquire lm nextId txn
        = ⟨(acqCombined txn.unique_id_
              (txn.readset_.length + txn.writeset_.length)
              lm txn.readset_ txn.writeset_).1, nextId,
            (acqCombined txn.unique_id_
              (txn.readset_.length + txn.writeset_.length)
              lm txn.readset_ txn.writeset_).2.1,
            .leftQueued txn⟩ := by
      rw [lockingAcquire_cases, if_pos hbl, if_neg hnt]
    rw [heq]
    have hrel := c2 hnt
    exact ⟨rfl, rfl, hrel,
      acqCombined_queue txn.unique_id_ _ lm txn.readset_ txn.writeset_ hrel⟩

/-- Witness for `C8_locking_denial_policy` at a concrete instance: the empty
mode-A lock manager, counter at 1, a transaction with id 0. -/
theorem C8_locking_denial_policy_witness :
    (Txn.unique_id_ ⟨0, [], [], [], [], .INCOMPLETE, 0⟩ < 1) ∧
    (lockingDenialRestartProp (.A ⟨[], [], []⟩) 1 ⟨0, [], [], [], [], .INCOMPLETE, 0⟩ ∧
      promotionPropA ∧ promotionPropB) :=
  ⟨by decide,
   C8_locking_denial_policy (.A ⟨[], [], []⟩) 1 ⟨0, [], [], [], [], .INCOMPLETE, 0⟩
     (by decide)⟩

end DBCC
